import Mathlib

/-!
Shallow embedding of `src/fetchTransactions.py` (Hive-Tax-CSV).

The script fetches an account's history and writes one CSV row per relevant
event.  The embedding below translates, from the source:

* `parse_amount` (lines 27-31) and the beem `Amount(...)` string parser it
  calls (an amount string is `"<decimal> <symbol>"`, split on a single space);
* `conversion_rate` (lines 18-21), the one-time VESTS-to-HP rate;
* the per-operation dispatch (lines 39-66), producing zero or more rows;
* the CSV sink (lines 34-36): header row then data rows.

Numeric model.  beem's `Amount.amount` property yields a Python float.  (It
must: line 30 multiplies `float(amount.amount)` by `conversion_rate`, itself a
quotient of two `.amount` values; a `Decimal` there would make the product a
`float * Decimal` type error, so the working program forces float semantics.)
Floats are idealized as exact rationals `PyF` (an integer numerator over a
natural denominator); every amount on the chain has few enough significant
digits that its float is the unique double nearest the decimal and all the
renderings below agree with CPython's.  `f"{x}"` on such a float prints the
shortest decimal that round-trips, i.e. the minimal decimal form of the
rational (`formatFloat`); `f"{x:.3f}"` rounds to three fractional digits
(`formatFixed3`; the half-way rounding direction of binary floats is
idealized as round-half-up, which no claim distinguishes).

Failure model.  Python exceptions (malformed timestamp, malformed amount
string, missing `amount_in`-style keys) are `Option` failures; a failing
operation aborts the run, so rows written before it remain in the file
(`emitRows` stops at the first failure).  CSV quoting is not modelled: no
emitted field contains a comma, quote or newline unless a crafted symbol
carries one, which no claim exercises.
-/

/-- Character of a single decimal digit (callers pass values below 10; the
`% 10` makes digit-hood unconditional). -/
def digitCh (n : Nat) : Char := Char.ofNat (48 + n % 10)

/-- Fuel-driven decimal digit expansion of a natural number. -/
def natDigitsAux : Nat → Nat → List Char
  | 0, _ => []
  | fuel + 1, n => if n < 10 then [digitCh n] else natDigitsAux fuel (n / 10) ++ [digitCh (n % 10)]

/-- Decimal digits of a natural number, most significant first. -/
def natDigits (n : Nat) : List Char := natDigitsAux (n + 1) n

/-- Left-pad a character list with `'0'` up to width `k`. -/
def padZeros (k : Nat) (cs : List Char) : List Char :=
  List.replicate (k - cs.length) '0' ++ cs

/-- A decimal literal as kept by `decimal.Decimal`: `mant / 10 ^ scale`. -/
structure DecNum where
  mant : Int
  scale : Nat
deriving DecidableEq

/-- A Python float idealized as the exact rational `num / den`.  All values
produced by the program keep `den` positive. -/
structure PyF where
  num : Int
  den : Nat
deriving DecidableEq

/-- Exact value of a `PyF`, for specification statements only. -/
def PyF.toQ (x : PyF) : ℚ := (x.num : ℚ) / (x.den : ℚ)

/-- Float multiplication (exact in the rational idealization). -/
def PyF.mul (a b : PyF) : PyF := ⟨a.num * b.num, a.den * b.den⟩

/-- Float division (exact in the rational idealization).  Division by a zero
value yields a zero denominator, the image of Python's `ZeroDivisionError`;
the program only divides by the global share supply, assumed positive. -/
def PyF.div (a b : PyF) : PyF :=
  if b.num < 0 then ⟨-(a.num * b.den), a.den * b.num.natAbs⟩
  else ⟨a.num * b.den, a.den * b.num.natAbs⟩

/-- The float a `DecNum` converts to (exact for chain-sized amounts). -/
def DecNum.toPyF (d : DecNum) : PyF := ⟨d.mant, 10 ^ d.scale⟩

/-- Value of all-digit characters read as a decimal numeral; `none` if empty
or any character is not a digit. -/
def digitsVal (cs : List Char) : Option Nat :=
  if cs ≠ [] ∧ cs.all Char.isDigit then
    some (cs.foldl (fun a c => a * 10 + (c.toNat - 48)) 0)
  else none

/-- Split a character list at the first `'.'`: integer part, and the
fractional part when a dot is present. -/
def breakDot : List Char → List Char × Option (List Char)
  | [] => ([], none)
  | c :: cs =>
    if c = '.' then ([], some cs)
    else
      let p := breakDot cs
      (c :: p.1, p.2)

/-- Parse a plain decimal literal the way `decimal.Decimal` accepts the
chain's amount strings: optional sign, digits, optional dot and digits (a
second dot or a stray character rejects; `"1."` and `".5"` are accepted). -/
def parseDec (s : String) : Option DecNum :=
  let p : Bool × List Char :=
    match s.data with
    | '-' :: rest => (true, rest)
    | '+' :: rest => (false, rest)
    | cs => (false, cs)
  let sgn : Int → Int := fun n => if p.1 then -n else n
  match breakDot p.2 with
  | (ip, none) => (digitsVal ip).map fun n => ⟨sgn n, 0⟩
  | (ip, some fp) =>
    if ip.all Char.isDigit ∧ fp.all Char.isDigit ∧ (ip ≠ [] ∨ fp ≠ []) then
      let v : Nat := (ip.foldl (fun a c => a * 10 + (c.toNat - 48)) 0) * 10 ^ fp.length
        + fp.foldl (fun a c => a * 10 + (c.toNat - 48)) 0
      some ⟨sgn (Int.ofNat v), fp.length⟩
    else none

/-- Split a character list on every single space (empty pieces kept), as
Python's `str.split(" ")` does. -/
def splitSp : List Char → List (List Char)
  | [] => [[]]
  | c :: cs =>
    if c = ' ' then [] :: splitSp cs
    else
      match splitSp cs with
      | [] => [[c]]
      | p :: ps => (c :: p) :: ps

/-- beem `Amount`: a decimal magnitude and its currency symbol. -/
structure Amount where
  dec : DecNum
  symbol : String
deriving DecidableEq

/-- beem `Amount(amount_str)`: the string must be exactly
`"<decimal> <symbol>"` (one space); anything else raises. -/
def Amount.parse (s : String) : Option Amount :=
  match splitSp s.data with
  | [a, sym] => (parseDec ⟨a⟩).map fun d => ⟨d, ⟨sym⟩⟩
  | _ => none

/-- beem's `Amount.amount` property: the magnitude as a float. -/
def Amount.amount (a : Amount) : PyF := a.dec.toPyF

/-- Line 21: `conversion_rate = total_vesting_fund_hive / total_vesting_shares`. -/
def conversion_rate (total_vesting_fund_hive total_vesting_shares : PyF) : PyF :=
  PyF.div total_vesting_fund_hive total_vesting_shares

/-- Lines 27-31: parse an amount string and convert VESTS to HP at the
precomputed rate when `is_vests` is set. -/
def parse_amount (rate : PyF) (amount_str : String) (is_vests : Bool) : Option PyF :=
  (Amount.parse amount_str).map fun amount =>
    if is_vests then PyF.mul amount.amount rate else amount.amount

/-- Calendar date and time, as produced by `datetime.strptime`. -/
structure DateTime where
  year : Nat
  month : Nat
  day : Nat
  hour : Nat
  minute : Nat
  second : Nat
deriving DecidableEq

/-- Gregorian leap-year test. -/
def isLeap (y : Nat) : Bool := (y % 4 == 0 && y % 100 != 0) || y % 400 == 0

/-- Days in a month, as `datetime` validates them. -/
def daysInMonth (y m : Nat) : Nat :=
  if m = 2 then (if isLeap y then 29 else 28)
  else if m = 4 ∨ m = 6 ∨ m = 9 ∨ m = 11 then 30 else 31

/-- Value of two digit characters. -/
def twoDigits (a b : Char) : Option Nat :=
  if a.isDigit ∧ b.isDigit then some ((a.toNat - 48) * 10 + (b.toNat - 48)) else none

/-- Line 40: `datetime.strptime(ts, "%Y-%m-%dT%H:%M:%S")` on the zero-padded
timestamps the feed delivers, with `datetime`'s field-range validation. -/
def strptimeTs (s : String) : Option DateTime :=
  match s.data with
  | [y1, y2, y3, y4, '-', m1, m2, '-', d1, d2, 'T', h1, h2, ':', n1, n2, ':', s1, s2] =>
    (digitsVal [y1, y2, y3, y4]).bind fun y =>
    (twoDigits m1 m2).bind fun mo =>
    (twoDigits d1 d2).bind fun d =>
    (twoDigits h1 h2).bind fun h =>
    (twoDigits n1 n2).bind fun mi =>
    (twoDigits s1 s2).bind fun se =>
    if 1 ≤ mo ∧ mo ≤ 12 ∧ 1 ≤ d ∧ d ≤ daysInMonth y mo ∧ h ≤ 23 ∧ mi ≤ 59 ∧ se ≤ 59 then
      some ⟨y, mo, d, h, mi, se⟩
    else none
  | _ => none

/-- Two-digit zero-padded rendering (exact for the range-validated fields a
parsed `DateTime` carries). -/
def pad2 (n : Nat) : List Char := [digitCh (n / 10 % 10), digitCh (n % 10)]

/-- Four-digit zero-padded rendering of the year. -/
def pad4 (n : Nat) : List Char :=
  [digitCh (n / 1000 % 10), digitCh (n / 100 % 10), digitCh (n / 10 % 10), digitCh (n % 10)]

/-- `timestamp.strftime("%Y-%m-%d %H:%M:%S")`. -/
def renderTs (dt : DateTime) : String :=
  ⟨pad4 dt.year ++ '-' :: pad2 dt.month ++ '-' :: pad2 dt.day ++ ' ' ::
    pad2 dt.hour ++ ':' :: pad2 dt.minute ++ ':' :: pad2 dt.second⟩

/-- Divide out factors `p` (fuel-driven): factor count and the remaining
cofactor. -/
def stripP (p : Nat) : Nat → Nat → Nat × Nat
  | 0, n => (0, n)
  | fuel + 1, n =>
    if 2 ≤ p ∧ 0 < n ∧ n % p = 0 then
      let r := stripP p fuel (n / p)
      (r.1 + 1, r.2)
    else (0, n)

/-- Drop trailing decimal zeros of a mantissa, never below scale zero. -/
def stripZeros : Nat → Nat → Nat × Nat
  | 0, n => (0, n)
  | s + 1, n => if n % 10 = 0 then stripZeros s (n / 10) else (s + 1, n)

/-- Python `str(x)`/`f"{x}"` on a float holding an exact decimal value: the
shortest decimal that round-trips, i.e. the value's minimal decimal form with
at least one fractional digit.  A value with no finite decimal expansion is
not a float; the fallback arm renders `num/den` and is never reached by the
program. -/
def formatFloat (x : PyF) : String :=
  let g := Nat.gcd x.num.natAbs x.den
  let na := x.num.natAbs / g
  let d := x.den / g
  let a := stripP 2 d d
  let b := stripP 5 a.2 a.2
  if b.2 = 1 then
    let k := max a.1 b.1
    let m := na * 10 ^ k / d
    let r := stripZeros k m
    ⟨(if x.num < 0 then ['-'] else []) ++
      (if r.1 = 0 then natDigits r.2 ++ ['.', '0']
       else natDigits (r.2 / 10 ^ r.1) ++ '.' :: padZeros r.1 (natDigits (r.2 % 10 ^ r.1)))⟩
  else
    ⟨(if x.num < 0 then ['-'] else []) ++ natDigits na ++ '/' :: natDigits d⟩

/-- Exactly three digit characters: the last three decimal digits of `n`
(callers pass `n < 1000`). -/
def frac3 (n : Nat) : List Char := [digitCh (n / 100 % 10), digitCh (n / 10 % 10), digitCh (n % 10)]

/-- Python `f"{x:.3f}"`: the value rounded to three fractional digits. -/
def formatFixed3 (x : PyF) : String :=
  let n : Int := Int.fdiv (2000 * x.num + (x.den : Int)) (2 * (x.den : Int))
  ⟨(if n < 0 then ['-'] else []) ++ natDigits (n.natAbs / 1000) ++ '.' :: frac3 (n.natAbs % 1000)⟩

/-- One operation record of the account-history feed.  Only the fields the
script reads are kept; a `none` field is an absent dictionary key. -/
structure Operation where
  type : String
  timestamp : String
  reward_hive : Option String
  reward_hbd : Option String
  reward_vests : Option String
  interest : Option String
  amount_in : Option String
  amount_out : Option String
  current_pays : Option String
  open_pays : Option String
deriving DecidableEq

/-- One CSV data row, in the column order of the header. -/
structure Row where
  time : String
  category : String
  inAmount : String
  inCurrency : String
  outAmount : String
  outCurrency : String
  fee : String
  feeCurrency : String
  market : String
  note : String
deriving DecidableEq

/-- Lines 42-66: rows produced for one operation once its timestamp has been
rendered.  Each float comparison `x > 0` is numerator positivity, which
agrees with the value comparison because every denominator the program
builds is positive. -/
def rowsForType (rate : PyF) (time : String) (op : Operation) : Option (List Row) :=
  if op.type = "claim_reward_balance" then do
    let hive_amount ← parse_amount rate (op.reward_hive.getD "0 HIVE") false
    let hbd_amount ← parse_amount rate (op.reward_hbd.getD "0 HBD") false
    let vests_amount ← parse_amount rate (op.reward_vests.getD "0 VESTS") true
    some ((if 0 < hive_amount.num then
            [⟨time, "Income", formatFloat hive_amount, "HIVE", "", "", "", "", "", ""⟩] else []) ++
          (if 0 < hbd_amount.num then
            [⟨time, "Income", formatFloat hbd_amount, "HBD", "", "", "", "", "", ""⟩] else []) ++
          (if 0 < vests_amount.num then
            [⟨time, "Income", formatFixed3 vests_amount, "HP", "", "", "", "", "", ""⟩] else []))
  else if op.type = "interest" then do
    let interest_amount ← parse_amount rate (op.interest.getD "0 HBD") false
    some [⟨time, "Interest", formatFloat interest_amount, "HBD", "", "", "", "", "", ""⟩]
  else if op.type = "fill_convert_request" then do
    let rawIn ← op.amount_in
    let rawOut ← op.amount_out
    let amount_in ← Amount.parse rawIn
    let amount_out ← Amount.parse rawOut
    some [⟨time, "Transaction", formatFloat amount_in.amount, amount_in.symbol,
      formatFloat amount_out.amount, amount_out.symbol, "", "", "Hive Internal Market", "Conversion"⟩]
  else if op.type = "fill_order" then do
    let rawCur ← op.current_pays
    let rawOpen ← op.open_pays
    let current_pays ← Amount.parse rawCur
    let open_pays ← Amount.parse rawOpen
    some [⟨time, "Trade", formatFloat current_pays.amount, current_pays.symbol,
      formatFloat open_pays.amount, open_pays.symbol, "", "", "Hive Internal Market", "Trade"⟩]
  else some []

/-- Lines 40-66: one loop iteration. -/
def processOperation (rate : PyF) (op : Operation) : Option (List Row) := do
  let dt ← strptimeTs op.timestamp
  rowsForType rate (renderTs dt) op

/-- Data rows of the whole run; a failing operation aborts the loop, keeping
the rows already written. -/
def emitRows (rate : PyF) : List Operation → List Row
  | [] => []
  | op :: rest =>
    match processOperation rate op with
    | none => []
    | some rows => rows ++ emitRows rate rest

/-- Line 36: the header cells. -/
def headerFields : List String :=
  ["Time", "Type", "In", "In-Currency", "Out", "Out-Currency", "Fee", "Fee-Currency", "Market", "Note"]

/-- Comma-join a row's cells. -/
def sepFields : List String → String
  | [] => ""
  | [f] => f
  | f :: fs => f ++ "," ++ sepFields fs

/-- One line as `csv.writer` emits it (default dialect: comma separator,
`"\r\n"` terminator; quoting never triggered by the program's fields). -/
def csvLine (fields : List String) : String := sepFields fields ++ "\r\n"

/-- A row's cells in file order. -/
def rowFields (r : Row) : List String :=
  [r.time, r.category, r.inAmount, r.inCurrency, r.outAmount, r.outCurrency,
   r.fee, r.feeCurrency, r.market, r.note]

/-- Serialize data rows. -/
def joinRows : List Row → String
  | [] => ""
  | r :: rs => csvLine (rowFields r) ++ joinRows rs

/-- The output file: the header line then the data rows of the run. -/
def fileContent (rate : PyF) (ops : List Operation) : String :=
  csvLine headerFields ++ joinRows (emitRows rate ops)

/-- Characters of the first line, excluding the terminator. -/
def lineChars : List Char → List Char
  | [] => []
  | c :: cs => if c = '\n' then [] else c :: lineChars cs

/-- Drop one trailing carriage return. -/
def stripCR : List Char → List Char
  | [] => []
  | ['\r'] => []
  | c :: cs => c :: stripCR cs

/-- First line of a text, without its line terminator. -/
def firstLine (s : String) : String := ⟨stripCR (lineChars s.data)⟩

/-- The fractional digits of a rendered number: the characters after the
unique `'.'` (`none` if there is no dot or more than one). -/
def fracPart : List Char → Option (List Char)
  | [] => none
  | c :: cs => if c = '.' then (if '.' ∈ cs then none else some cs) else fracPart cs

/-- A row with its timestamp cell blanked, to compare rows up to time. -/
def stripTime (r : Row) : Row :=
  ⟨"", r.category, r.inAmount, r.inCurrency, r.outAmount, r.outCurrency,
    r.fee, r.feeCurrency, r.market, r.note⟩

/-- The fill-order operation of the spec's trade scenario. -/
def exOpFillOrder : Operation :=
  ⟨"fill_order", "2023-05-01T12:00:00", none, none, none, none, none, none,
    some "1.000 HIVE", some "0.500 HBD"⟩

/-- A reward claim paying only 2.500 HBD. -/
def exOpClaimHbd : Operation :=
  ⟨"claim_reward_balance", "2023-06-15T09:30:00", some "0 HIVE", some "2.500 HBD",
    some "0 VESTS", none, none, none, none, none⟩

/-- A reward claim paying only share units. -/
def exOpClaimVests : Operation :=
  ⟨"claim_reward_balance", "2023-06-15T09:30:00", some "0 HIVE", some "0 HBD",
    some "1.000000 VESTS", none, none, none, none, none⟩

/-- An operation of an unrecognized kind. -/
def exOpTransfer : Operation :=
  ⟨"transfer", "2023-06-15T09:30:00", none, none, none, none, none, none, none, none⟩

/-- An interest payment of zero. -/
def exOpInterestZero : Operation :=
  ⟨"interest", "2023-06-15T09:30:00", none, none, none, some "0.000 HBD", none, none, none, none⟩

/-- An interest payment whose amount string carries an alien symbol. -/
def exOpInterestXyz : Operation :=
  ⟨"interest", "2023-06-15T09:30:00", none, none, none, some "5.000 XYZ", none, none, none, none⟩

/-! ### General lemmas about the embedding's building blocks -/

theorem isDigit_toNat {c : Char} (h : c.isDigit = true) : 48 ≤ c.toNat ∧ c.toNat ≤ 57 := by
  simp only [Char.isDigit, Bool.and_eq_true, decide_eq_true_eq] at h
  obtain ⟨h1, h2⟩ := h
  rw [ge_iff_le, UInt32.le_def, BitVec.le_def] at h1
  rw [UInt32.le_def, BitVec.le_def] at h2
  exact ⟨h1, h2⟩

theorem digitCh_of_isDigit {c : Char} (h : c.isDigit = true) :
    digitCh (c.toNat - 48) = c := by
  obtain ⟨h1, h2⟩ := isDigit_toNat h
  have e : 48 + (c.toNat - 48) % 10 = c.toNat := by omega
  rw [digitCh, e, Char.ofNat_toNat]

theorem digitCh_digit (k : Nat) : (digitCh k).isDigit = true ∧ digitCh k ≠ '.' := by
  rw [digitCh]
  have : k % 10 < 10 := Nat.mod_lt _ (by norm_num)
  set j := k % 10 with hj
  interval_cases j <;> decide

theorem natDigitsAux_shape (fuel : Nat) :
    ∀ n c, c ∈ natDigitsAux fuel n → ∃ k, c = digitCh k := by
  induction fuel with
  | zero => intro n c hc; simp [natDigitsAux] at hc
  | succ f ih =>
    intro n c hc
    rw [natDigitsAux] at hc
    by_cases h : n < 10
    · rw [if_pos h] at hc
      simp at hc
      exact ⟨n, hc⟩
    · rw [if_neg h] at hc
      rcases List.mem_append.mp hc with hc | hc
      · exact ih _ _ hc
      · simp at hc
        exact ⟨n % 10, hc⟩

theorem natDigits_no_dot {n : Nat} {c : Char} (hc : c ∈ natDigits n) :
    c.isDigit = true ∧ c ≠ '.' := by
  obtain ⟨k, rfl⟩ := natDigitsAux_shape _ _ _ hc
  exact digitCh_digit k

theorem processOperation_eq (rate : PyF) (op : Operation) :
    processOperation rate op =
      (strptimeTs op.timestamp).bind fun dt => rowsForType rate (renderTs dt) op := rfl

theorem rowsForType_claim_eq (rate : PyF) (t : String) (op : Operation)
    (h : op.type = "claim_reward_balance") :
    rowsForType rate t op =
      (parse_amount rate (op.reward_hive.getD "0 HIVE") false).bind fun ha =>
      (parse_amount rate (op.reward_hbd.getD "0 HBD") false).bind fun hb =>
      (parse_amount rate (op.reward_vests.getD "0 VESTS") true).bind fun hv =>
      some ((if 0 < ha.num then [⟨t, "Income", formatFloat ha, "HIVE", "", "", "", "", "", ""⟩] else []) ++
            (if 0 < hb.num then [⟨t, "Income", formatFloat hb, "HBD", "", "", "", "", "", ""⟩] else []) ++
            (if 0 < hv.num then [⟨t, "Income", formatFixed3 hv, "HP", "", "", "", "", "", ""⟩] else [])) := by
  simp [rowsForType, h]

theorem rowsForType_interest_eq (rate : PyF) (t : String) (op : Operation)
    (h : op.type = "interest") :
    rowsForType rate t op =
      (parse_amount rate (op.interest.getD "0 HBD") false).bind fun a =>
      some [⟨t, "Interest", formatFloat a, "HBD", "", "", "", "", "", ""⟩] := by
  simp [rowsForType, h]

theorem rowsForType_convert_eq (rate : PyF) (t : String) (op : Operation)
    (h : op.type = "fill_convert_request") :
    rowsForType rate t op =
      op.amount_in.bind fun rawIn =>
      op.amount_out.bind fun rawOut =>
      (Amount.parse rawIn).bind fun amount_in =>
      (Amount.parse rawOut).bind fun amount_out =>
      some [⟨t, "Transaction", formatFloat amount_in.amount, amount_in.symbol,
        formatFloat amount_out.amount, amount_out.symbol, "", "",
        "Hive Internal Market", "Conversion"⟩] := by
  simp [rowsForType, h]

theorem rowsForType_order_eq (rate : PyF) (t : String) (op : Operation)
    (h : op.type = "fill_order") :
    rowsForType rate t op =
      op.current_pays.bind fun rawCur =>
      op.open_pays.bind fun rawOpen =>
      (Amount.parse rawCur).bind fun current_pays =>
      (Amount.parse rawOpen).bind fun open_pays =>
      some [⟨t, "Trade", formatFloat current_pays.amount, current_pays.symbol,
        formatFloat open_pays.amount, open_pays.symbol, "", "",
        "Hive Internal Market", "Trade"⟩] := by
  simp [rowsForType, h]

theorem PyF.toQ_mul (a b : PyF) : (PyF.mul a b).toQ = a.toQ * b.toQ := by
  simp only [PyF.mul, PyF.toQ]
  push_cast
  rw [div_mul_div_comm]

theorem PyF.toQ_pos_iff {x : PyF} (hd : 0 < x.den) : 0 < x.toQ ↔ 0 < x.num := by
  have hdq : (0 : ℚ) < (x.den : ℚ) := by exact_mod_cast hd
  rw [PyF.toQ, div_pos_iff]
  constructor
  · rintro (⟨h, _⟩ | ⟨_, h⟩)
    · exact_mod_cast h
    · exact absurd hdq (not_lt.mpr h.le)
  · intro h
    exact Or.inl ⟨by exact_mod_cast h, hdq⟩

theorem PyF.toQ_eq_zero_iff {x : PyF} (hd : 0 < x.den) : x.toQ = 0 ↔ x.num = 0 := by
  have hdq : (x.den : ℚ) ≠ 0 := by positivity
  rw [PyF.toQ, div_eq_zero_iff]
  simp [hdq]

theorem parse_amount_den_pos {rate : PyF} {s : String} {v : Bool} {x : PyF}
    (hr : 0 < rate.den) (hp : parse_amount rate s v = some x) : 0 < x.den := by
  rw [parse_amount, Option.map_eq_some'] at hp
  obtain ⟨a, _, rfl⟩ := hp
  cases v with
  | false =>
    simp only [Bool.false_eq_true, if_false, Amount.amount, DecNum.toPyF]
    exact pow_pos (by norm_num) _
  | true =>
    simp only [if_true, PyF.mul, Amount.amount, DecNum.toPyF]
    exact Nat.mul_pos (pow_pos (by norm_num) _) hr

theorem splitSp_nospace {l : List Char} (h : ' ' ∉ l) : splitSp l = [l] := by
  induction l with
  | nil => rfl
  | cons c cs ih =>
    have hc : ¬ c = ' ' := fun e => h (e ▸ List.mem_cons_self c cs)
    have hcs : ' ' ∉ cs := fun m => h (List.mem_cons_of_mem c m)
    rw [splitSp, if_neg hc, ih hcs]

theorem splitSp_pair {d sym : List Char} (hd : ' ' ∉ d) (hs : ' ' ∉ sym) :
    splitSp (d ++ ' ' :: sym) = [d, sym] := by
  induction d with
  | nil => simp [splitSp, splitSp_nospace hs]
  | cons c cs ih =>
    have hc : ¬ c = ' ' := fun e => hd (e ▸ List.mem_cons_self c cs)
    have hcs : ' ' ∉ cs := fun m => hd (List.mem_cons_of_mem c m)
    rw [List.cons_append, splitSp, if_neg hc, ih hcs]

theorem lineChars_append {xs : List Char} (ys : List Char) (h : '\n' ∈ xs) :
    lineChars (xs ++ ys) = lineChars xs := by
  induction xs with
  | nil => simp at h
  | cons c cs ih =>
    by_cases hc : c = '\n'
    · subst hc; simp [lineChars]
    · have : '\n' ∈ cs := by
        rcases List.mem_cons.mp h with h | h
        · exact absurd h.symm hc
        · exact h
      simp [List.cons_append, lineChars, hc, ih this]

theorem fracPart_append {xs ys : List Char} (hx : '.' ∉ xs) (hy : '.' ∉ ys) :
    fracPart (xs ++ '.' :: ys) = some ys := by
  induction xs with
  | nil => simp [fracPart, hy]
  | cons c cs ih =>
    have hc : ¬ c = '.' := fun e => hx (e ▸ List.mem_cons_self c cs)
    have hcs : '.' ∉ cs := fun m => hx (List.mem_cons_of_mem c m)
    rw [List.cons_append, fracPart, if_neg hc, ih hcs]

theorem formatFixed3_fracPart (x : PyF) :
    ∃ l, fracPart (formatFixed3 x).data = some l ∧ l.length = 3 ∧ l.all Char.isDigit = true := by
  rw [formatFixed3]
  set n := Int.fdiv (2000 * x.num + (x.den : Int)) (2 * (x.den : Int)) with hn
  refine ⟨frac3 (n.natAbs % 1000), ?_, rfl, ?_⟩
  · show fracPart ((if n < 0 then ['-'] else []) ++
      natDigits (n.natAbs / 1000) ++ '.' :: frac3 (n.natAbs % 1000)) = _
    refine fracPart_append ?_ ?_
    · intro hdot
      rcases List.mem_append.mp hdot with hdot | hdot
      · split at hdot <;> simp_all
      · exact (natDigits_no_dot hdot).2 rfl
    · intro hdot
      rw [frac3] at hdot
      simp only [List.mem_cons, List.not_mem_nil, or_false] at hdot
      rcases hdot with h | h | h <;> exact (digitCh_digit _).2 h.symm
  · rw [frac3]
    simp only [List.all_cons, List.all_nil, Bool.and_true, Bool.and_eq_true]
    exact ⟨(digitCh_digit _).1, (digitCh_digit _).1, (digitCh_digit _).1⟩

/-! ### Claim theorems -/

/-- C7, counterexample: on the spec's fill-order scenario operation the
program emits the row whose In and Out amount cells are `"1.0"` and `"0.5"`
(Python's `str` of the floats `1.0` and `0.5`), not `"1.000"` and `"0.500"`
as the claim states. -/
theorem fill_order_render_refuted :
    processOperation ⟨1, 1⟩ exOpFillOrder =
      some [⟨"2023-05-01 12:00:00", "Trade", "1.0", "HIVE", "0.5", "HBD", "", "",
        "Hive Internal Market", "Trade"⟩] ∧
    ¬ processOperation ⟨1, 1⟩ exOpFillOrder =
      some [⟨"2023-05-01 12:00:00", "Trade", "1.000", "HIVE", "0.500", "HBD", "", "",
        "Hive Internal Market", "Trade"⟩] := by
  constructor
  · rfl
  · decide

/-- C7 (amended): for the operation `{type: fill_order, current_pays:
"1.000 HIVE", open_pays: "0.500 HBD", timestamp: "2023-05-01T12:00:00"}` the
program emits, whatever the conversion rate, exactly the single row
`2023-05-01 12:00:00, Trade, 1.0, HIVE, 0.5, HBD, , , Hive Internal Market,
Trade` — the In and Out amounts render as `"1.0"` and `"0.5"`, the default
float formatting of the parsed values. -/
theorem fill_order_scenario_row (rate : PyF) :
    processOperation rate exOpFillOrder =
      some [⟨"2023-05-01 12:00:00", "Trade", "1.0", "HIVE", "0.5", "HBD", "", "",
        "Hive Internal Market", "Trade"⟩] := rfl

/-- C9: an operation whose type is none of the four recognized kinds (and
whose timestamp, parsed before the dispatch, is well formed) produces zero
rows and no error, so the loop continues with the next operation. -/
theorem unrecognized_skipped (rate : PyF) (op : Operation) (dt : DateTime)
    (hts : strptimeTs op.timestamp = some dt)
    (h : op.type ∉ ["claim_reward_balance", "interest", "fill_convert_request", "fill_order"]) :
    processOperation rate op = some [] := by
  simp only [List.mem_cons, List.not_mem_nil, or_false, not_or] at h
  obtain ⟨h1, h2, h3, h4⟩ := h
  simp [processOperation, hts, rowsForType, h1, h2, h3, h4]

/-- C9 witness: a `transfer` operation is skipped without error. -/
theorem unrecognized_skipped_witness : processOperation ⟨1, 1⟩ exOpTransfer = some [] :=
  unrecognized_skipped ⟨1, 1⟩ exOpTransfer ⟨2023, 6, 15, 9, 30, 0⟩ (by decide) (by decide)

/-- C3: an operation of type interest, fill_convert_request or fill_order
that the loop processes without error yields exactly one row, of category
Interest, Transaction or Trade respectively, whatever the parsed amounts
(zero included). -/
theorem single_row_kinds (rate : PyF) (op : Operation) (rows : List Row)
    (h : op.type = "interest" ∨ op.type = "fill_convert_request" ∨ op.type = "fill_order")
    (hp : processOperation rate op = some rows) :
    ∃ r, rows = [r] ∧
      r.category = (if op.type = "interest" then "Interest"
        else if op.type = "fill_convert_request" then "Transaction" else "Trade") := by
  rw [processOperation_eq, Option.bind_eq_some] at hp
  obtain ⟨dt, _, hrt⟩ := hp
  rcases h with h | h | h
  · rw [rowsForType_interest_eq rate _ op h, Option.bind_eq_some] at hrt
    obtain ⟨a, _, heq⟩ := hrt
    refine ⟨_, (Option.some.inj heq).symm, ?_⟩
    simp [h]
  · rw [rowsForType_convert_eq rate _ op h, Option.bind_eq_some] at hrt
    obtain ⟨r1, _, hrt⟩ := hrt
    rw [Option.bind_eq_some] at hrt
    obtain ⟨r2, _, hrt⟩ := hrt
    rw [Option.bind_eq_some] at hrt
    obtain ⟨a1, _, hrt⟩ := hrt
    rw [Option.bind_eq_some] at hrt
    obtain ⟨a2, _, heq⟩ := hrt
    refine ⟨_, (Option.some.inj heq).symm, ?_⟩
    simp [h]
  · rw [rowsForType_order_eq rate _ op h, Option.bind_eq_some] at hrt
    obtain ⟨r1, _, hrt⟩ := hrt
    rw [Option.bind_eq_some] at hrt
    obtain ⟨r2, _, hrt⟩ := hrt
    rw [Option.bind_eq_some] at hrt
    obtain ⟨a1, _, hrt⟩ := hrt
    rw [Option.bind_eq_some] at hrt
    obtain ⟨a2, _, heq⟩ := hrt
    refine ⟨_, (Option.some.inj heq).symm, ?_⟩
    simp [h]

/-- C3 witness: a zero interest payment still yields its single row. -/
theorem single_row_kinds_witness :
    ∃ r, [(⟨"2023-06-15 09:30:00", "Interest", "0.0", "HBD", "", "", "", "", "", ""⟩ : Row)] = [r] ∧
      r.category = (if exOpInterestZero.type = "interest" then "Interest"
        else if exOpInterestZero.type = "fill_convert_request" then "Transaction" else "Trade") :=
  single_row_kinds ⟨1, 1⟩ exOpInterestZero _ (Or.inl rfl) (by decide)

/-- C10: the interest row's In-Currency cell is the literal `"HBD"` whatever
symbol the operation's amount string carries, and the reward-claim rows carry
only the literals `"HIVE"`, `"HBD"` and `"HP"`; the parsed symbols are
discarded. -/
theorem hardcoded_currencies (rate : PyF) (op : Operation) (rows : List Row)
    (hp : processOperation rate op = some rows) :
    (op.type = "interest" → ∀ r ∈ rows, r.inCurrency = "HBD") ∧
    (op.type = "claim_reward_balance" →
      ∀ r ∈ rows, r.inCurrency = "HIVE" ∨ r.inCurrency = "HBD" ∨ r.inCurrency = "HP") := by
  rw [processOperation_eq, Option.bind_eq_some] at hp
  obtain ⟨dt, _, hrt⟩ := hp
  constructor
  · intro h r hr
    rw [rowsForType_interest_eq rate _ op h, Option.bind_eq_some] at hrt
    obtain ⟨a, _, heq⟩ := hrt
    obtain rfl : rows = _ := (Option.some.inj heq).symm
    simp only [List.mem_singleton] at hr
    subst hr
    rfl
  · intro h r hr
    rw [rowsForType_claim_eq rate _ op h, Option.bind_eq_some] at hrt
    obtain ⟨ha, _, hrt⟩ := hrt
    rw [Option.bind_eq_some] at hrt
    obtain ⟨hb, _, hrt⟩ := hrt
    rw [Option.bind_eq_some] at hrt
    obtain ⟨hv, _, heq⟩ := hrt
    obtain rfl : rows = _ := (Option.some.inj heq).symm
    rcases List.mem_append.mp hr with h1 | h1
    · rcases List.mem_append.mp h1 with h2 | h2
      · split at h2
        · simp only [List.mem_singleton] at h2; subst h2; exact Or.inl rfl
        · simp at h2
      · split at h2
        · simp only [List.mem_singleton] at h2; subst h2; exact Or.inr (Or.inl rfl)
        · simp at h2
    · split at h1
      · simp only [List.mem_singleton] at h1; subst h1; exact Or.inr (Or.inr rfl)
      · simp at h1

/-- C10 witness: an interest amount tagged `XYZ` still lands in an `HBD`
row. -/
theorem hardcoded_currencies_witness :
    (exOpInterestXyz.type = "interest" →
      ∀ r ∈ [(⟨"2023-06-15 09:30:00", "Interest", "5.0", "HBD", "", "", "", "", "", ""⟩ : Row)],
        r.inCurrency = "HBD") ∧
    (exOpInterestXyz.type = "claim_reward_balance" →
      ∀ r ∈ [(⟨"2023-06-15 09:30:00", "Interest", "5.0", "HBD", "", "", "", "", "", ""⟩ : Row)],
        r.inCurrency = "HIVE" ∨ r.inCurrency = "HBD" ∨ r.inCurrency = "HP") :=
  hardcoded_currencies ⟨1, 1⟩ exOpInterestXyz _ (by decide)

/-- C1: a reward-claim operation the loop processes without error emits one
Income row per sub-amount (HIVE, HBD, converted VESTS) whose parsed value is
strictly positive and none for the others, hence between 0 and 3 rows, and
none at all when all three values are zero. -/
theorem claim_reward_row_emission (rate : PyF) (op : Operation) (rows : List Row)
    (hden : 0 < rate.den)
    (h : op.type = "claim_reward_balance")
    (hp : processOperation rate op = some rows) :
    ∃ ha hb hv : PyF,
      parse_amount rate (op.reward_hive.getD "0 HIVE") false = some ha ∧
      parse_amount rate (op.reward_hbd.getD "0 HBD") false = some hb ∧
      parse_amount rate (op.reward_vests.getD "0 VESTS") true = some hv ∧
      rows.length = (if 0 < ha.toQ then 1 else 0) + (if 0 < hb.toQ then 1 else 0)
        + (if 0 < hv.toQ then 1 else 0) ∧
      (∀ r ∈ rows, r.category = "Income") ∧
      rows.length ≤ 3 ∧
      (ha.toQ = 0 → hb.toQ = 0 → hv.toQ = 0 → rows = []) := by
  rw [processOperation_eq, Option.bind_eq_some] at hp
  obtain ⟨dt, _, hrt⟩ := hp
  rw [rowsForType_claim_eq rate _ op h, Option.bind_eq_some] at hrt
  obtain ⟨ha, ea, hrt⟩ := hrt
  rw [Option.bind_eq_some] at hrt
  obtain ⟨hb, eb, hrt⟩ := hrt
  rw [Option.bind_eq_some] at hrt
  obtain ⟨hv, ev, heq⟩ := hrt
  obtain rfl : rows = _ := (Option.some.inj heq).symm
  have pa := PyF.toQ_pos_iff (parse_amount_den_pos hden ea)
  have pb := PyF.toQ_pos_iff (parse_amount_den_pos hden eb)
  have pv := PyF.toQ_pos_iff (parse_amount_den_pos hden ev)
  have za := PyF.toQ_eq_zero_iff (parse_amount_den_pos hden ea)
  have zb := PyF.toQ_eq_zero_iff (parse_amount_den_pos hden eb)
  have zv := PyF.toQ_eq_zero_iff (parse_amount_den_pos hden ev)
  refine ⟨ha, hb, hv, ea, eb, ev, ?_, ?_, ?_, ?_⟩
  · simp only [pa, pb, pv, List.length_append]
    split_ifs <;> simp
  · intro r hr
    rcases List.mem_append.mp hr with h1 | h1
    · rcases List.mem_append.mp h1 with h2 | h2
      · split at h2
        · simp only [List.mem_singleton] at h2; subst h2; rfl
        · simp at h2
      · split at h2
        · simp only [List.mem_singleton] at h2; subst h2; rfl
        · simp at h2
    · split at h1
      · simp only [List.mem_singleton] at h1; subst h1; rfl
      · simp at h1
  · simp only [List.length_append]
    split_ifs <;> simp
  · intro z1 z2 z3
    simp [za.mp z1, zb.mp z2, zv.mp z3]

/-- C1 witness: the spec's HBD-only reward scenario, at rate one half. -/
theorem claim_reward_row_emission_witness :
    ∃ ha hb hv : PyF,
      parse_amount ⟨1, 2⟩ (exOpClaimHbd.reward_hive.getD "0 HIVE") false = some ha ∧
      parse_amount ⟨1, 2⟩ (exOpClaimHbd.reward_hbd.getD "0 HBD") false = some hb ∧
      parse_amount ⟨1, 2⟩ (exOpClaimHbd.reward_vests.getD "0 VESTS") true = some hv ∧
      [(⟨"2023-06-15 09:30:00", "Income", "2.5", "HBD", "", "", "", "", "", ""⟩ : Row)].length =
        (if 0 < ha.toQ then 1 else 0) + (if 0 < hb.toQ then 1 else 0)
          + (if 0 < hv.toQ then 1 else 0) ∧
      (∀ r ∈ [(⟨"2023-06-15 09:30:00", "Income", "2.5", "HBD", "", "", "", "", "", ""⟩ : Row)],
        r.category = "Income") ∧
      [(⟨"2023-06-15 09:30:00", "Income", "2.5", "HBD", "", "", "", "", "", ""⟩ : Row)].length ≤ 3 ∧
      (ha.toQ = 0 → hb.toQ = 0 → hv.toQ = 0 →
        [(⟨"2023-06-15 09:30:00", "Income", "2.5", "HBD", "", "", "", "", "", ""⟩ : Row)] = []) :=
  claim_reward_row_emission ⟨1, 2⟩ exOpClaimHbd _ (by decide) (by decide) (by decide)

/-- C2: `parse_amount` parses its argument as `"<decimal> <symbol>"`; with
the share-unit flag set it returns the decimal value multiplied by the
precomputed conversion rate, and with the flag clear the decimal value
unchanged. -/
theorem parse_amount_conversion (rate : PyF) (s : String) (d sym : List Char) (dec : DecNum)
    (hs : s.data = d ++ ' ' :: sym)
    (hd : ' ' ∉ d) (hsym : ' ' ∉ sym)
    (hdec : parseDec ⟨d⟩ = some dec) :
    ∃ xv xf : PyF,
      parse_amount rate s true = some xv ∧ xv.toQ = dec.toPyF.toQ * rate.toQ ∧
      parse_amount rate s false = some xf ∧ xf.toQ = dec.toPyF.toQ ∧
      dec.toPyF.toQ = (dec.mant : ℚ) / 10 ^ dec.scale := by
  have hsplit : splitSp s.data = [d, sym] := by rw [hs]; exact splitSp_pair hd hsym
  have hparse : Amount.parse s = some ⟨dec, ⟨sym⟩⟩ := by
    simp [Amount.parse, hsplit, hdec]
  refine ⟨PyF.mul dec.toPyF rate, dec.toPyF, ?_, PyF.toQ_mul _ _, ?_, rfl, ?_⟩
  · rw [parse_amount, hparse]; rfl
  · rw [parse_amount, hparse]; rfl
  · rw [DecNum.toPyF, PyF.toQ]
    push_cast
    rfl

/-- C2 witness: `"1.500 HIVE"` parsed at rate 2. -/
theorem parse_amount_conversion_witness :
    ∃ xv xf : PyF,
      parse_amount ⟨2, 1⟩ "1.500 HIVE" true = some xv ∧
      xv.toQ = (⟨1500, 3⟩ : DecNum).toPyF.toQ * (⟨2, 1⟩ : PyF).toQ ∧
      parse_amount ⟨2, 1⟩ "1.500 HIVE" false = some xf ∧
      xf.toQ = (⟨1500, 3⟩ : DecNum).toPyF.toQ ∧
      (⟨1500, 3⟩ : DecNum).toPyF.toQ = ((1500 : Int) : ℚ) / 10 ^ (3 : Nat) :=
  parse_amount_conversion ⟨2, 1⟩ "1.500 HIVE" "1.500".data "HIVE".data ⟨1500, 3⟩
    (by decide) (by decide) (by decide) (by decide)

/-- C5, counterexample: the output's first line joins the ten header cells
with bare commas; it is not the comma-space string the claim quotes. -/
theorem header_spaces_refuted :
    firstLine (fileContent ⟨1, 1⟩ []) =
      "Time,Type,In,In-Currency,Out,Out-Currency,Fee,Fee-Currency,Market,Note" ∧
    firstLine (fileContent ⟨1, 1⟩ []) ≠
      "Time, Type, In, In-Currency, Out, Out-Currency, Fee, Fee-Currency, Market, Note" := by
  decide

/-- C5 (amended): the output file's first line is the fixed 10-column header
`Time,Type,In,In-Currency,Out,Out-Currency,Fee,Fee-Currency,Market,Note`
(cells joined by bare commas), written exactly once at the start — the whole
file is that header line followed by the data rows — and an empty feed
yields the header line alone. -/
theorem header_line_format (rate : PyF) (ops : List Operation) :
    firstLine (fileContent rate ops) =
      "Time,Type,In,In-Currency,Out,Out-Currency,Fee,Fee-Currency,Market,Note" ∧
    fileContent rate [] = csvLine headerFields ∧
    ∃ rest, fileContent rate ops = csvLine headerFields ++ rest := by
  refine ⟨?_, ?_, joinRows (emitRows rate ops), rfl⟩
  · rw [fileContent, firstLine, String.data_append, lineChars_append _ (by decide)]
    decide
  · show csvLine headerFields ++ joinRows [] = csvLine headerFields
    rw [show joinRows ([] : List Row) = "" from rfl, String.append_empty]

/-- C6: in a processed reward claim, every row whose In-Currency cell is
`"HP"` carries the converted share-unit amount formatted by `"%.3f"`, and
that rendering has exactly three digit characters after its unique decimal
point. -/
theorem vests_row_three_decimals (rate : PyF) (op : Operation) (rows : List Row) (r : Row)
    (h : op.type = "claim_reward_balance")
    (hp : processOperation rate op = some rows)
    (hr : r ∈ rows) (hcur : r.inCurrency = "HP") :
    ∃ v : PyF, parse_amount rate (op.reward_vests.getD "0 VESTS") true = some v ∧
      r.inAmount = formatFixed3 v ∧
      ∃ l, fracPart r.inAmount.data = some l ∧ l.length = 3 ∧ l.all Char.isDigit = true := by
  rw [processOperation_eq, Option.bind_eq_some] at hp
  obtain ⟨dt, _, hrt⟩ := hp
  rw [rowsForType_claim_eq rate _ op h, Option.bind_eq_some] at hrt
  obtain ⟨ha, _, hrt⟩ := hrt
  rw [Option.bind_eq_some] at hrt
  obtain ⟨hb, _, hrt⟩ := hrt
  rw [Option.bind_eq_some] at hrt
  obtain ⟨hv, ev, heq⟩ := hrt
  obtain rfl : rows = _ := (Option.some.inj heq).symm
  have hrow : r = ⟨renderTs dt, "Income", formatFixed3 hv, "HP", "", "", "", "", "", ""⟩ := by
    rcases List.mem_append.mp hr with h1 | h1
    · rcases List.mem_append.mp h1 with h2 | h2
      · split at h2
        · simp only [List.mem_singleton] at h2; subst h2; simp at hcur
        · simp at h2
      · split at h2
        · simp only [List.mem_singleton] at h2; subst h2; simp at hcur
        · simp at h2
    · split at h1
      · simp only [List.mem_singleton] at h1; exact h1
      · simp at h1
  subst hrow
  exact ⟨hv, ev, rfl, formatFixed3_fracPart hv⟩

/-- C6 witness: a claim of 1.000000 VESTS at rate 2 renders as `"2.000"`. -/
theorem vests_row_three_decimals_witness :
    ∃ v : PyF, parse_amount ⟨2, 1⟩ (exOpClaimVests.reward_vests.getD "0 VESTS") true = some v ∧
      (⟨"2023-06-15 09:30:00", "Income", "2.000", "HP", "", "", "", "", "", ""⟩ : Row).inAmount =
        formatFixed3 v ∧
      ∃ l, fracPart
          (⟨"2023-06-15 09:30:00", "Income", "2.000", "HP", "", "", "", "", "", ""⟩ : Row).inAmount.data
          = some l ∧ l.length = 3 ∧ l.all Char.isDigit = true :=
  vests_row_three_decimals ⟨2, 1⟩ exOpClaimVests
    [⟨"2023-06-15 09:30:00", "Income", "2.000", "HP", "", "", "", "", "", ""⟩]
    ⟨"2023-06-15 09:30:00", "Income", "2.000", "HP", "", "", "", "", "", ""⟩
    (by decide) (by decide) (by decide) (by decide)

theorem mapT_digit {c : Char} (h : c.isDigit = true) : (if c = 'T' then ' ' else c) = c :=
  if_neg (fun e => absurd (e ▸ (isDigit_toNat h).2) (by decide))

theorem twoDigits_eq {a b : Char} {n : Nat} (h : twoDigits a b = some n) :
    a.isDigit = true ∧ b.isDigit = true ∧ pad2 n = [a, b] := by
  rw [twoDigits] at h
  split at h
  case isTrue hd =>
    obtain ⟨ha, hb⟩ := hd
    obtain rfl := Option.some.inj h
    obtain ⟨la, ua⟩ := isDigit_toNat ha
    obtain ⟨lb, ub⟩ := isDigit_toNat hb
    refine ⟨ha, hb, ?_⟩
    have e1 : ((a.toNat - 48) * 10 + (b.toNat - 48)) / 10 % 10 = a.toNat - 48 := by omega
    have e2 : ((a.toNat - 48) * 10 + (b.toNat - 48)) % 10 = b.toNat - 48 := by omega
    rw [pad2, e1, e2, digitCh_of_isDigit ha, digitCh_of_isDigit hb]
  case isFalse => exact absurd h (by simp)

theorem digitsVal4_eq {a b c d : Char} {n : Nat} (h : digitsVal [a, b, c, d] = some n) :
    a.isDigit = true ∧ b.isDigit = true ∧ c.isDigit = true ∧ d.isDigit = true ∧
      pad4 n = [a, b, c, d] := by
  rw [digitsVal] at h
  split at h
  case isTrue hd =>
    obtain ⟨-, hall⟩ := hd
    simp only [List.all_cons, List.all_nil, Bool.and_true, Bool.and_eq_true] at hall
    obtain ⟨ha, hb, hc, hdd⟩ := hall
    obtain rfl := Option.some.inj h
    obtain ⟨la, ua⟩ := isDigit_toNat ha
    obtain ⟨lb, ub⟩ := isDigit_toNat hb
    obtain ⟨lc, uc⟩ := isDigit_toNat hc
    obtain ⟨ld, ud⟩ := isDigit_toNat hdd
    refine ⟨ha, hb, hc, hdd, ?_⟩
    have e : [a, b, c, d].foldl (fun x ch => x * 10 + (ch.toNat - 48)) 0
        = ((a.toNat - 48) * 1000 + (b.toNat - 48) * 100 + (c.toNat - 48) * 10
          + (d.toNat - 48)) := by
      simp [List.foldl]; ring
    rw [e]
    have g1 : ((a.toNat - 48) * 1000 + (b.toNat - 48) * 100 + (c.toNat - 48) * 10
        + (d.toNat - 48)) / 1000 % 10 = a.toNat - 48 := by omega
    have g2 : ((a.toNat - 48) * 1000 + (b.toNat - 48) * 100 + (c.toNat - 48) * 10
        + (d.toNat - 48)) / 100 % 10 = b.toNat - 48 := by omega
    have g3 : ((a.toNat - 48) * 1000 + (b.toNat - 48) * 100 + (c.toNat - 48) * 10
        + (d.toNat - 48)) / 10 % 10 = c.toNat - 48 := by omega
    have g4 : ((a.toNat - 48) * 1000 + (b.toNat - 48) * 100 + (c.toNat - 48) * 10
        + (d.toNat - 48)) % 10 = d.toNat - 48 := by omega
    rw [pad4, g1, g2, g3, g4, digitCh_of_isDigit ha, digitCh_of_isDigit hb,
      digitCh_of_isDigit hc, digitCh_of_isDigit hdd]
  case isFalse => exact absurd h (by simp)

theorem renderTs_strptime {s : String} {dt : DateTime} (h : strptimeTs s = some dt) :
    (renderTs dt).data = s.data.map fun c => if c = 'T' then ' ' else c := by
  rw [strptimeTs] at h
  split at h
  case h_2 => exact absurd h (by simp)
  case h_1 y1 y2 y3 y4 m1 m2 dd1 dd2 hh1 hh2 nn1 nn2 ss1 ss2 heq =>
    rw [Option.bind_eq_some] at h
    obtain ⟨y, hy, h⟩ := h
    rw [Option.bind_eq_some] at h
    obtain ⟨mo, hmo, h⟩ := h
    rw [Option.bind_eq_some] at h
    obtain ⟨dd, hdd, h⟩ := h
    rw [Option.bind_eq_some] at h
    obtain ⟨hh, hhh, h⟩ := h
    rw [Option.bind_eq_some] at h
    obtain ⟨mi, hmi, h⟩ := h
    rw [Option.bind_eq_some] at h
    obtain ⟨se, hse, h⟩ := h
    split at h
    case isFalse => exact absurd h (by simp)
    case isTrue hrange =>
    obtain rfl : DateTime.mk y mo dd hh mi se = dt := Option.some.inj h
    obtain ⟨dy1, dy2, dy3, dy4, epad4⟩ := digitsVal4_eq hy
    obtain ⟨dm1, dm2, epadm⟩ := twoDigits_eq hmo
    obtain ⟨dd1, dd2, epadd⟩ := twoDigits_eq hdd
    obtain ⟨dh1, dh2, epadh⟩ := twoDigits_eq hhh
    obtain ⟨dn1, dn2, epadn⟩ := twoDigits_eq hmi
    obtain ⟨ds1, ds2, epads⟩ := twoDigits_eq hse
    rw [heq]
    show pad4 y ++ '-' :: pad2 mo ++ '-' :: pad2 dd ++ ' ' ::
        pad2 hh ++ ':' :: pad2 mi ++ ':' :: pad2 se = _
    rw [epad4, epadm, epadd, epadh, epadn, epads]
    simp only [List.map_cons, List.map_nil, mapT_digit dy1, mapT_digit dy2, mapT_digit dy3,
      mapT_digit dy4, mapT_digit dm1, mapT_digit dm2, mapT_digit dd1, mapT_digit dd2,
      mapT_digit dh1, mapT_digit dh2, mapT_digit dn1, mapT_digit dn2,
      mapT_digit ds1, mapT_digit ds2]
    simp

theorem rowsForType_other_eq (rate : PyF) (t : String) (op : Operation)
    (h1 : ¬ op.type = "claim_reward_balance") (h2 : ¬ op.type = "interest")
    (h3 : ¬ op.type = "fill_convert_request") (h4 : ¬ op.type = "fill_order") :
    rowsForType rate t op = some [] := by
  simp [rowsForType, h1, h2, h3, h4]

theorem mem_claim_rows_cases {r : Row} {t : String} {ha hb hv : PyF}
    (hr : r ∈
      (if 0 < ha.num then [(⟨t, "Income", formatFloat ha, "HIVE", "", "", "", "", "", ""⟩ : Row)]
        else []) ++
      (if 0 < hb.num then [⟨t, "Income", formatFloat hb, "HBD", "", "", "", "", "", ""⟩]
        else []) ++
      (if 0 < hv.num then [⟨t, "Income", formatFixed3 hv, "HP", "", "", "", "", "", ""⟩]
        else [])) :
    r = ⟨t, "Income", formatFloat ha, "HIVE", "", "", "", "", "", ""⟩ ∨
    r = ⟨t, "Income", formatFloat hb, "HBD", "", "", "", "", "", ""⟩ ∨
    r = ⟨t, "Income", formatFixed3 hv, "HP", "", "", "", "", "", ""⟩ := by
  rcases List.mem_append.mp hr with h1 | h1
  · rcases List.mem_append.mp h1 with h2 | h2
    · split at h2
      · simp only [List.mem_singleton] at h2; exact Or.inl h2
      · simp at h2
    · split at h2
      · simp only [List.mem_singleton] at h2; exact Or.inr (Or.inl h2)
      · simp at h2
  · split at h1
    · simp only [List.mem_singleton] at h1; exact Or.inr (Or.inr h1)
    · simp at h1

/-- C8: every emitted row, of every operation kind, has empty Fee and
Fee-Currency cells, and its Time cell is the operation's
`YYYY-MM-DDTHH:MM:SS` timestamp reformatted to `YYYY-MM-DD HH:MM:SS` — the
re-rendered parse, equal to the original string with `'T'` replaced by a
space. -/
theorem rows_fee_empty_and_time (rate : PyF) (op : Operation) (rows : List Row)
    (dt : DateTime) (r : Row)
    (hts : strptimeTs op.timestamp = some dt)
    (hp : processOperation rate op = some rows) (hr : r ∈ rows) :
    r.time = renderTs dt ∧
    r.time.data = (op.timestamp.data.map fun c => if c = 'T' then ' ' else c) ∧
    r.fee = "" ∧ r.feeCurrency = "" := by
  have base : r.time = renderTs dt ∧ r.fee = "" ∧ r.feeCurrency = "" := by
    rw [processOperation_eq, Option.bind_eq_some] at hp
    obtain ⟨dt', hdt, hrt⟩ := hp
    rw [hts] at hdt
    obtain rfl : dt = dt' := Option.some.inj hdt
    by_cases h1 : op.type = "claim_reward_balance"
    · rw [rowsForType_claim_eq rate _ op h1, Option.bind_eq_some] at hrt
      obtain ⟨ha, _, hrt⟩ := hrt
      rw [Option.bind_eq_some] at hrt
      obtain ⟨hb, _, hrt⟩ := hrt
      rw [Option.bind_eq_some] at hrt
      obtain ⟨hv, _, heq⟩ := hrt
      obtain rfl : rows = _ := (Option.some.inj heq).symm
      rcases mem_claim_rows_cases hr with h | h | h <;> subst h <;> exact ⟨rfl, rfl, rfl⟩
    · by_cases h2 : op.type = "interest"
      · rw [rowsForType_interest_eq rate _ op h2, Option.bind_eq_some] at hrt
        obtain ⟨a, _, heq⟩ := hrt
        obtain rfl : rows = _ := (Option.some.inj heq).symm
        simp only [List.mem_singleton] at hr
        subst hr; exact ⟨rfl, rfl, rfl⟩
      · by_cases h3 : op.type = "fill_convert_request"
        · rw [rowsForType_convert_eq rate _ op h3, Option.bind_eq_some] at hrt
          obtain ⟨r1, _, hrt⟩ := hrt
          rw [Option.bind_eq_some] at hrt
          obtain ⟨r2, _, hrt⟩ := hrt
          rw [Option.bind_eq_some] at hrt
          obtain ⟨a1, _, hrt⟩ := hrt
          rw [Option.bind_eq_some] at hrt
          obtain ⟨a2, _, heq⟩ := hrt
          obtain rfl : rows = _ := (Option.some.inj heq).symm
          simp only [List.mem_singleton] at hr
          subst hr; exact ⟨rfl, rfl, rfl⟩
        · by_cases h4 : op.type = "fill_order"
          · rw [rowsForType_order_eq rate _ op h4, Option.bind_eq_some] at hrt
            obtain ⟨r1, _, hrt⟩ := hrt
            rw [Option.bind_eq_some] at hrt
            obtain ⟨r2, _, hrt⟩ := hrt
            rw [Option.bind_eq_some] at hrt
            obtain ⟨a1, _, hrt⟩ := hrt
            rw [Option.bind_eq_some] at hrt
            obtain ⟨a2, _, heq⟩ := hrt
            obtain rfl : rows = _ := (Option.some.inj heq).symm
            simp only [List.mem_singleton] at hr
            subst hr; exact ⟨rfl, rfl, rfl⟩
          · rw [rowsForType_other_eq rate _ op h1 h2 h3 h4] at hrt
            obtain rfl : rows = _ := (Option.some.inj hrt).symm
            simp at hr
  refine ⟨base.1, ?_, base.2.1, base.2.2⟩
  rw [base.1]
  exact renderTs_strptime hts

/-- C8 witness: the fill-order scenario row. -/
theorem rows_fee_empty_and_time_witness :
    (⟨"2023-05-01 12:00:00", "Trade", "1.0", "HIVE", "0.5", "HBD", "", "",
      "Hive Internal Market", "Trade"⟩ : Row).time = renderTs ⟨2023, 5, 1, 12, 0, 0⟩ ∧
    (⟨"2023-05-01 12:00:00", "Trade", "1.0", "HIVE", "0.5", "HBD", "", "",
      "Hive Internal Market", "Trade"⟩ : Row).time.data =
      (exOpFillOrder.timestamp.data.map fun c => if c = 'T' then ' ' else c) ∧
    (⟨"2023-05-01 12:00:00", "Trade", "1.0", "HIVE", "0.5", "HBD", "", "",
      "Hive Internal Market", "Trade"⟩ : Row).fee = "" ∧
    (⟨"2023-05-01 12:00:00", "Trade", "1.0", "HIVE", "0.5", "HBD", "", "",
      "Hive Internal Market", "Trade"⟩ : Row).feeCurrency = "" :=
  rows_fee_empty_and_time ⟨1, 1⟩ exOpFillOrder
    [⟨"2023-05-01 12:00:00", "Trade", "1.0", "HIVE", "0.5", "HBD", "", "",
      "Hive Internal Market", "Trade"⟩]
    ⟨2023, 5, 1, 12, 0, 0⟩
    ⟨"2023-05-01 12:00:00", "Trade", "1.0", "HIVE", "0.5", "HBD", "", "",
      "Hive Internal Market", "Trade"⟩
    (by decide) (by decide) (by decide)

theorem rowsForType_stripTime (rate : PyF) (t t' : String) (op : Operation)
    {l l' : List Row} (h : rowsForType rate t op = some l)
    (h' : rowsForType rate t' op = some l') :
    l.map stripTime = l'.map stripTime := by
  by_cases h1 : op.type = "claim_reward_balance"
  · rw [rowsForType_claim_eq rate t op h1, Option.bind_eq_some] at h
    rw [rowsForType_claim_eq rate t' op h1, Option.bind_eq_some] at h'
    obtain ⟨ha, ea, h⟩ := h
    obtain ⟨ha', ea', h'⟩ := h'
    rw [ea] at ea'
    obtain rfl := Option.some.inj ea'
    rw [Option.bind_eq_some] at h h'
    obtain ⟨hb, eb, h⟩ := h
    obtain ⟨hb', eb', h'⟩ := h'
    rw [eb] at eb'
    obtain rfl := Option.some.inj eb'
    rw [Option.bind_eq_some] at h h'
    obtain ⟨hv, ev, heq⟩ := h
    obtain ⟨hv', ev', heq'⟩ := h'
    rw [ev] at ev'
    obtain rfl := Option.some.inj ev'
    obtain rfl : l = _ := (Option.some.inj heq).symm
    obtain rfl : l' = _ := (Option.some.inj heq').symm
    simp only [List.map_append, apply_ite (List.map stripTime), List.map_cons, List.map_nil,
      stripTime]
  · by_cases h2 : op.type = "interest"
    · rw [rowsForType_interest_eq rate t op h2, Option.bind_eq_some] at h
      rw [rowsForType_interest_eq rate t' op h2, Option.bind_eq_some] at h'
      obtain ⟨a, ea, heq⟩ := h
      obtain ⟨a', ea', heq'⟩ := h'
      rw [ea] at ea'
      obtain rfl := Option.some.inj ea'
      obtain rfl : l = _ := (Option.some.inj heq).symm
      obtain rfl : l' = _ := (Option.some.inj heq').symm
      simp only [List.map_cons, List.map_nil, stripTime]
    · by_cases h3 : op.type = "fill_convert_request"
      · rw [rowsForType_convert_eq rate t op h3, Option.bind_eq_some] at h
        rw [rowsForType_convert_eq rate t' op h3, Option.bind_eq_some] at h'
        obtain ⟨r1, e1, h⟩ := h
        obtain ⟨r1', e1', h'⟩ := h'
        rw [e1] at e1'
        obtain rfl := Option.some.inj e1'
        rw [Option.bind_eq_some] at h h'
        obtain ⟨r2, e2, h⟩ := h
        obtain ⟨r2', e2', h'⟩ := h'
        rw [e2] at e2'
        obtain rfl := Option.some.inj e2'
        rw [Option.bind_eq_some] at h h'
        obtain ⟨a1, e3, h⟩ := h
        obtain ⟨a1', e3', h'⟩ := h'
        rw [e3] at e3'
        obtain rfl := Option.some.inj e3'
        rw [Option.bind_eq_some] at h h'
        obtain ⟨a2, e4, heq⟩ := h
        obtain ⟨a2', e4', heq'⟩ := h'
        rw [e4] at e4'
        obtain rfl := Option.some.inj e4'
        obtain rfl : l = _ := (Option.some.inj heq).symm
        obtain rfl : l' = _ := (Option.some.inj heq').symm
        simp only [List.map_cons, List.map_nil, stripTime]
      · by_cases h4 : op.type = "fill_order"
        · rw [rowsForType_order_eq rate t op h4, Option.bind_eq_some] at h
          rw [rowsForType_order_eq rate t' op h4, Option.bind_eq_some] at h'
          obtain ⟨r1, e1, h⟩ := h
          obtain ⟨r1', e1', h'⟩ := h'
          rw [e1] at e1'
          obtain rfl := Option.some.inj e1'
          rw [Option.bind_eq_some] at h h'
          obtain ⟨r2, e2, h⟩ := h
          obtain ⟨r2', e2', h'⟩ := h'
          rw [e2] at e2'
          obtain rfl := Option.some.inj e2'
          rw [Option.bind_eq_some] at h h'
          obtain ⟨a1, e3, h⟩ := h
          obtain ⟨a1', e3', h'⟩ := h'
          rw [e3] at e3'
          obtain rfl := Option.some.inj e3'
          rw [Option.bind_eq_some] at h h'
          obtain ⟨a2, e4, heq⟩ := h
          obtain ⟨a2', e4', heq'⟩ := h'
          rw [e4] at e4'
          obtain rfl := Option.some.inj e4'
          obtain rfl : l = _ := (Option.some.inj heq).symm
          obtain rfl : l' = _ := (Option.some.inj heq').symm
          simp only [List.map_cons, List.map_nil, stripTime]
        · rw [rowsForType_other_eq rate t op h1 h2 h3 h4] at h
          rw [rowsForType_other_eq rate t' op h1 h2 h3 h4] at h'
          obtain rfl : l = _ := (Option.some.inj h).symm
          obtain rfl : l' = _ := (Option.some.inj h').symm
          rfl

/-- C4: the conversion rate is the total reserve balance divided by the total
share supply — an exact division when the share supply is positive — and the
run passes that one value to every operation: two processings of the same
operation that differ only in timestamp yield rows identical outside the
time cell, so every share-unit conversion uses the same rate regardless of
the operation's own timestamp. -/
theorem conversion_rate_once (fund shares : PyF) (hs : 0 < shares.toQ) :
    (conversion_rate fund shares).toQ * shares.toQ = fund.toQ ∧
    ∀ (op : Operation) (ts ts' : String) (rows rows' : List Row),
      processOperation (conversion_rate fund shares) { op with timestamp := ts } = some rows →
      processOperation (conversion_rate fund shares) { op with timestamp := ts' } = some rows' →
      rows.map stripTime = rows'.map stripTime := by
  have hden : 0 < shares.den := by
    by_contra hd
    have h0 : shares.den = 0 := Nat.eq_zero_of_not_pos hd
    rw [PyF.toQ, h0] at hs
    simp at hs
  have hnum : 0 < shares.num := (PyF.toQ_pos_iff hden).mp hs
  constructor
  · rw [conversion_rate, PyF.div, if_neg (not_lt.mpr hnum.le)]
    have e : ((shares.num.natAbs : ℕ) : ℚ) = (shares.num : ℚ) := by
      rw [Int.cast_natAbs]
      exact_mod_cast abs_of_pos hnum
    simp only [PyF.toQ]
    push_cast [e]
    rw [div_mul_div_comm]
    have hc : (shares.den : ℚ) * (shares.num : ℚ) ≠ 0 := by
      refine mul_ne_zero ?_ ?_
      · exact_mod_cast hden.ne'
      · exact_mod_cast hnum.ne'
    have e1 : (fund.num : ℚ) * (shares.den : ℚ) * (shares.num : ℚ)
        = (fund.num : ℚ) * ((shares.den : ℚ) * (shares.num : ℚ)) := by ring
    have e2 : (fund.den : ℚ) * (shares.num : ℚ) * (shares.den : ℚ)
        = (fund.den : ℚ) * ((shares.den : ℚ) * (shares.num : ℚ)) := by ring
    rw [e1, e2]
    exact mul_div_mul_right _ _ hc
  · intro op ts ts' rows rows' hp hp'
    rw [processOperation_eq, Option.bind_eq_some] at hp hp'
    obtain ⟨dt, _, hrt⟩ := hp
    obtain ⟨dt', _, hrt'⟩ := hp'
    exact rowsForType_stripTime _ _ _ op hrt hrt'

/-- C4 witness: a fund of one half against a share supply of three quarters. -/
theorem conversion_rate_once_witness :
    (conversion_rate ⟨1, 2⟩ ⟨3, 4⟩).toQ * (⟨3, 4⟩ : PyF).toQ = (⟨1, 2⟩ : PyF).toQ :=
  (conversion_rate_once ⟨1, 2⟩ ⟨3, 4⟩ (by norm_num [PyF.toQ])).1
